import Mathlib

/-!
Verification of the solar-system renderer (src/lab5/src/main.rs).

Shallow embedding conventions:
* `u8` channel values are modelled as `Fin 256`, `u32`/`usize` values as `ℕ`
  (with explicit `% 2 ^ 32` / `% 2 ^ 16` where Rust wrapping matters).
* `f32` depth values are modelled as `WithTop ℚ`: `⊤` stands for
  `f32::INFINITY` and `<` is the IEEE strict order on non-NaN floats.
* `f32` geometric coordinates produced through `sin`/`cos` are modelled as
  real numbers with the exact `Real.sin`/`Real.cos` functions.
* Rust `Vec`s are Lean `List`s; indexed writes are `List.set` and indexed
  reads `List.getD` (the code only ever indexes in bounds, which is proved
  as part of the frame conditions below).
-/

-- =========================================================================
-- MÓDULO: COLOR (struct ColorRGB, main.rs lines 24-72)
-- =========================================================================

/-- `ColorRGB { rojo: u8, verde: u8, azul: u8 }`. -/
structure ColorRGB where
  rojo : Fin 256
  verde : Fin 256
  azul : Fin 256
deriving DecidableEq

/-- `ColorRGB::nuevo`. -/
def ColorRGB.nuevo (r g b : Fin 256) : ColorRGB := ⟨r, g, b⟩

/-- `ColorRGB::a_hexadecimal`:
`((self.rojo as u32) << 16) | ((self.verde as u32) << 8) | (self.azul as u32)`.
The u32 shifts/ors cannot exceed `2 ^ 24`, so no `% 2 ^ 32` is needed. -/
def ColorRGB.a_hexadecimal (c : ColorRGB) : ℕ :=
  ((c.rojo.val <<< 16) ||| (c.verde.val <<< 8)) ||| c.azul.val

-- =========================================================================
-- Bit-level helper lemmas
-- =========================================================================

/-- Or-ing a multiple of `2 ^ n` with a value below `2 ^ n` is addition. -/
theorem lor_two_pow_mul_eq_add (n : ℕ) :
    ∀ a b : ℕ, b < 2 ^ n → (2 ^ n * a) ||| b = 2 ^ n * a + b := by
  induction n with
  | zero =>
    intro a b hb
    interval_cases b
    simp
  | succ n ih =>
    intro a b hb
    have hb2 : b / 2 < 2 ^ n := by
      have h2 : (0:ℕ) < 2 := by norm_num
      rw [Nat.div_lt_iff_lt_mul h2]
      calc b < 2 ^ (n+1) := hb
        _ = 2 ^ n * 2 := by ring
    have h1 : 2 ^ (n+1) * a = Nat.bit false (2 ^ n * a) := by
      simp [Nat.bit_val]
      ring
    have h2 : b = Nat.bit (decide (b % 2 = 1)) (b >>> 1) :=
      (Nat.bit_decide_mod_two_eq_one_shiftRight_one b).symm
    rw [h1, h2, Nat.lor_bit, Bool.false_or, Nat.shiftRight_one, ih a (b / 2) hb2]
    have hmod : (decide (b % 2 = 1)).toNat = b % 2 := by
      rcases Nat.mod_two_eq_zero_or_one b with h | h <;> simp [h]
    simp only [Nat.bit_val, hmod, Bool.toNat_false]
    omega

/-- C8: `a_hexadecimal` packs the channels as `r*65536 + g*256 + b`
(red in the highest byte, blue in the lowest) and the result is below
`2 ^ 24`. -/
theorem C8_a_hexadecimal_packing (c : ColorRGB) :
    c.a_hexadecimal = c.rojo.val * 65536 + c.verde.val * 256 + c.azul.val ∧
      c.a_hexadecimal < 2 ^ 24 := by
  obtain ⟨⟨r, hr⟩, ⟨g, hg⟩, ⟨b, hb⟩⟩ := c
  have hsteps : ColorRGB.a_hexadecimal ⟨⟨r, hr⟩, ⟨g, hg⟩, ⟨b, hb⟩⟩ =
      r * 65536 + g * 256 + b := by
    unfold ColorRGB.a_hexadecimal
    simp only [Nat.shiftLeft_eq]
    have e1 : r * 2 ^ 16 = 2 ^ 16 * r := by ring
    have e2 : g * 2 ^ 8 < 2 ^ 16 := by omega
    rw [e1, lor_two_pow_mul_eq_add 16 r (g * 2 ^ 8) e2]
    have e3 : 2 ^ 16 * r + g * 2 ^ 8 = 2 ^ 8 * (r * 2 ^ 8 + g) := by ring
    rw [e3, lor_two_pow_mul_eq_add 8 (r * 2 ^ 8 + g) b (by omega)]
    ring
  constructor
  · exact hsteps
  · rw [hsteps]; omega

-- =========================================================================
-- MÓDULO: FRAMEBUFFER (struct BufferDePantalla, main.rs lines 159-206)
-- =========================================================================

/-- `f32` depth values: `⊤` is `f32::INFINITY`. -/
abbrev Prof := WithTop ℚ

/-- `BufferDePantalla` (main.rs lines 159-166). -/
structure BufferDePantalla where
  ancho : ℕ
  alto : ℕ
  buffer_colores : List ℕ
  buffer_profundidad : List Prof
  color_fondo : ℕ
  color_actual : ℕ
deriving DecidableEq

/-- `BufferDePantalla::nuevo` (main.rs lines 169-178): `w*h` zeros in the
color buffer, `w*h` copies of `f32::INFINITY` in the depth buffer,
background `0x000000`, draw color `0xFFFFFF`. -/
def BufferDePantalla.nuevo (w h : ℕ) : BufferDePantalla :=
  { ancho := w
    alto := h
    buffer_colores := List.replicate (w * h) 0
    buffer_profundidad := List.replicate (w * h) ⊤
    color_fondo := 0x000000
    color_actual := 0xFFFFFF }

/-- `BufferDePantalla::limpiar` (main.rs lines 180-187): overwrite every
color entry with `color_fondo` and every depth entry with `INFINITY`. -/
def BufferDePantalla.limpiar (fb : BufferDePantalla) : BufferDePantalla :=
  { fb with
    buffer_colores := fb.buffer_colores.map (fun _ => fb.color_fondo)
    buffer_profundidad := fb.buffer_profundidad.map (fun _ => (⊤ : Prof)) }

/-- `BufferDePantalla::dibujar_punto` (main.rs lines 189-197). -/
def BufferDePantalla.dibujar_punto (fb : BufferDePantalla) (x y : ℕ)
    (prof : Prof) : BufferDePantalla :=
  if x < fb.ancho ∧ y < fb.alto then
    let indice := y * fb.ancho + x
    if prof < fb.buffer_profundidad.getD indice ⊤ then
      { fb with
        buffer_colores := fb.buffer_colores.set indice fb.color_actual
        buffer_profundidad := fb.buffer_profundidad.set indice prof }
    else fb
  else fb

/-- `BufferDePantalla::establecer_color_fondo` (main.rs lines 199-201). -/
def BufferDePantalla.establecer_color_fondo (fb : BufferDePantalla)
    (color : ℕ) : BufferDePantalla :=
  { fb with color_fondo := color }

/-- `BufferDePantalla::establecer_color_actual` (main.rs lines 203-205). -/
def BufferDePantalla.establecer_color_actual (fb : BufferDePantalla)
    (color : ℕ) : BufferDePantalla :=
  { fb with color_actual := color }

/-- Representation invariant: both buffers have `ancho * alto` entries.
`nuevo` establishes it and every operation preserves it. -/
def BufferDePantalla.bienFormado (fb : BufferDePantalla) : Prop :=
  fb.buffer_colores.length = fb.ancho * fb.alto ∧
    fb.buffer_profundidad.length = fb.ancho * fb.alto

instance (fb : BufferDePantalla) : Decidable fb.bienFormado := by
  unfold BufferDePantalla.bienFormado
  infer_instance

-- =========================================================================
-- List helper lemmas
-- =========================================================================

theorem getD_set_self {α : Type} (l : List α) (i : ℕ) (h : i < l.length)
    (v d : α) : (l.set i v).getD i d = v := by
  simp [List.getD, List.getElem?_set_self, h]

theorem getD_set_ne {α : Type} (l : List α) (i j : ℕ) (h : i ≠ j)
    (v d : α) : (l.set i v).getD j d = l.getD j d := by
  simp [List.getD, List.getElem?_set_ne h]

theorem indice_lt {w h x y : ℕ} (hx : x < w) (hy : y < h) :
    y * w + x < w * h := by
  have h1 : y * w + x < (y + 1) * w := by
    have : (y + 1) * w = y * w + w := by ring
    omega
  have h2 : (y + 1) * w ≤ h * w := Nat.mul_le_mul_right w hy
  have h3 : h * w = w * h := by ring
  omega

theorem getD_replicate {α : Type} (n : ℕ) (a : α) (i : ℕ) :
    (List.replicate n a).getD i a = a := by
  rcases Nat.lt_or_ge i n with h | h
  · rw [List.getD_eq_getElem?_getD, List.getElem?_replicate, if_pos h]
    rfl
  · rw [List.getD_eq_getElem?_getD, List.getElem?_replicate,
      if_neg (by omega)]
    rfl

theorem getD_map_const {α β : Type} (l : List α) (b : β) (i : ℕ) :
    (l.map (fun _ => b)).getD i b = b := by
  rw [List.getD_eq_getElem?_getD, List.getElem?_map]
  cases h : l[i]? <;> simp

theorem getD_map_const_of_lt {α β : Type} (l : List α) (b d : β) (i : ℕ)
    (h : i < l.length) : (l.map (fun _ => b)).getD i d = b := by
  rw [List.getD_eq_getElem?_getD, List.getElem?_map,
    List.getElem?_eq_getElem h]
  rfl

-- =========================================================================
-- Unfolding lemmas for dibujar_punto
-- =========================================================================

theorem dibujar_punto_escribe (fb : BufferDePantalla) (x y : ℕ) (prof : Prof)
    (hx : x < fb.ancho) (hy : y < fb.alto)
    (hprof : prof < fb.buffer_profundidad.getD (y * fb.ancho + x) ⊤) :
    fb.dibujar_punto x y prof =
      { fb with
        buffer_colores :=
          fb.buffer_colores.set (y * fb.ancho + x) fb.color_actual
        buffer_profundidad :=
          fb.buffer_profundidad.set (y * fb.ancho + x) prof } := by
  unfold BufferDePantalla.dibujar_punto
  rw [if_pos ⟨hx, hy⟩, if_pos hprof]

theorem dibujar_punto_no_escribe (fb : BufferDePantalla) (x y : ℕ)
    (prof : Prof)
    (hprof : ¬ prof < fb.buffer_profundidad.getD (y * fb.ancho + x) ⊤) :
    fb.dibujar_punto x y prof = fb := by
  unfold BufferDePantalla.dibujar_punto
  split
  · rw [if_neg hprof]
  · rfl

theorem dibujar_punto_fuera (fb : BufferDePantalla) (x y : ℕ) (prof : Prof)
    (h : ¬ (x < fb.ancho ∧ y < fb.alto)) :
    fb.dibujar_punto x y prof = fb := by
  simp [BufferDePantalla.dibujar_punto, h]

-- =========================================================================
-- Claim C1
-- =========================================================================

/-- C1: for an in-bounds call `dibujar_punto x y prof`, the color and depth
entries at index `y*ancho + x` are set to `color_actual` and `prof` exactly
when `prof` is strictly below the stored depth, and are left as they were
otherwise; the stored depth is `+∞` (`⊤`) at every index after `nuevo` and
after `limpiar`. -/
theorem C1_dibujar_punto_prueba_profundidad (fb : BufferDePantalla)
    (x y : ℕ) (prof : Prof) (hwf : fb.bienFormado)
    (hx : x < fb.ancho) (hy : y < fb.alto) :
    ((prof < fb.buffer_profundidad.getD (y * fb.ancho + x) ⊤ →
        (fb.dibujar_punto x y prof).buffer_colores.getD (y * fb.ancho + x) 0 =
          fb.color_actual ∧
        (fb.dibujar_punto x y prof).buffer_profundidad.getD
          (y * fb.ancho + x) ⊤ = prof) ∧
      (¬ prof < fb.buffer_profundidad.getD (y * fb.ancho + x) ⊤ →
        (fb.dibujar_punto x y prof).buffer_colores.getD (y * fb.ancho + x) 0 =
          fb.buffer_colores.getD (y * fb.ancho + x) 0 ∧
        (fb.dibujar_punto x y prof).buffer_profundidad.getD
          (y * fb.ancho + x) ⊤ =
          fb.buffer_profundidad.getD (y * fb.ancho + x) ⊤)) ∧
    (∀ w h i, (BufferDePantalla.nuevo w h).buffer_profundidad.getD i ⊤ = ⊤) ∧
    (∀ fb' : BufferDePantalla, ∀ i,
        fb'.limpiar.buffer_profundidad.getD i ⊤ = ⊤) := by
  obtain ⟨hwc, hwp⟩ := hwf
  refine ⟨⟨?_, ?_⟩, ?_, ?_⟩
  · intro hprof
    rw [dibujar_punto_escribe fb x y prof hx hy hprof]
    constructor
    · exact getD_set_self _ _ (by rw [hwc]; exact indice_lt hx hy) _ _
    · exact getD_set_self _ _ (by rw [hwp]; exact indice_lt hx hy) _ _
  · intro hprof
    rw [dibujar_punto_no_escribe fb x y prof hprof]
    exact ⟨rfl, rfl⟩
  · intro w h i
    exact getD_replicate _ _ _
  · intro fb' i
    exact getD_map_const _ _ _

/-- Witness for C1 at `nuevo 2 2`, pixel `(0, 1)`, depth `3`. -/
theorem C1_witness :
    ((BufferDePantalla.nuevo 2 2).dibujar_punto 0 1
        ((3 : ℚ) : Prof)).buffer_profundidad.getD 2 ⊤ = ((3 : ℚ) : Prof) := by
  have h := C1_dibujar_punto_prueba_profundidad (BufferDePantalla.nuevo 2 2)
    0 1 ((3 : ℚ) : Prof) (by decide) (by decide) (by decide)
  exact (h.1.1 (by decide)).2

-- =========================================================================
-- Claim C2
-- =========================================================================

/-- C2: after `limpiar`, every color entry equals the background color and
every depth entry equals `+∞`, whatever the buffer held before; both buffer
lengths are preserved. -/
theorem C2_limpiar_reinicia (fb : BufferDePantalla) :
    (∀ i, i < fb.buffer_colores.length →
        fb.limpiar.buffer_colores.getD i 0 = fb.color_fondo) ∧
    (∀ i, fb.limpiar.buffer_profundidad.getD i ⊤ = ⊤) ∧
    fb.limpiar.buffer_colores.length = fb.buffer_colores.length ∧
    fb.limpiar.buffer_profundidad.length = fb.buffer_profundidad.length := by
  refine ⟨?_, ?_, ?_, ?_⟩
  · intro i hi
    exact getD_map_const_of_lt _ _ _ _ hi
  · intro i
    exact getD_map_const _ _ _
  · simp [BufferDePantalla.limpiar]
  · simp [BufferDePantalla.limpiar]

/-- Witness for C2 on a dirty 1×2 buffer. -/
theorem C2_witness :
    ({ ancho := 1, alto := 2, buffer_colores := [7, 9]
       buffer_profundidad := [((1 : ℚ) : Prof), ((2 : ℚ) : Prof)]
       color_fondo := 4, color_actual := 5 } :
        BufferDePantalla).limpiar.buffer_colores.getD 1 0 = 4 := by
  exact (C2_limpiar_reinicia _).1 1 (by decide)

-- =========================================================================
-- Claim C9
-- =========================================================================

/-- C9: `dibujar_punto` is total (never panics in the model); with an
out-of-bounds pixel it returns the buffer unchanged, and with an in-bounds
pixel the computed index is within both arrays and every entry other than
that index — as well as the lengths and the remaining fields — is
unchanged. -/
theorem C9_dibujar_punto_marco (fb : BufferDePantalla) (x y : ℕ)
    (prof : Prof) :
    (¬ (x < fb.ancho ∧ y < fb.alto) → fb.dibujar_punto x y prof = fb) ∧
    (fb.bienFormado → x < fb.ancho → y < fb.alto →
      y * fb.ancho + x < fb.buffer_colores.length ∧
      y * fb.ancho + x < fb.buffer_profundidad.length ∧
      (∀ j, j ≠ y * fb.ancho + x →
        (fb.dibujar_punto x y prof).buffer_colores.getD j 0 =
          fb.buffer_colores.getD j 0 ∧
        (fb.dibujar_punto x y prof).buffer_profundidad.getD j ⊤ =
          fb.buffer_profundidad.getD j ⊤) ∧
      (fb.dibujar_punto x y prof).buffer_colores.length =
        fb.buffer_colores.length ∧
      (fb.dibujar_punto x y prof).buffer_profundidad.length =
        fb.buffer_profundidad.length ∧
      (fb.dibujar_punto x y prof).ancho = fb.ancho ∧
      (fb.dibujar_punto x y prof).alto = fb.alto ∧
      (fb.dibujar_punto x y prof).color_fondo = fb.color_fondo ∧
      (fb.dibujar_punto x y prof).color_actual = fb.color_actual) := by
  constructor
  · intro h
    exact dibujar_punto_fuera fb x y prof h
  · rintro ⟨hwc, hwp⟩ hx hy
    by_cases hprof : prof < fb.buffer_profundidad.getD (y * fb.ancho + x) ⊤
    · rw [dibujar_punto_escribe fb x y prof hx hy hprof]
      refine ⟨by rw [hwc]; exact indice_lt hx hy,
        by rw [hwp]; exact indice_lt hx hy, ?_, by simp, by simp,
        rfl, rfl, rfl, rfl⟩
      intro j hj
      exact ⟨getD_set_ne _ _ _ (fun h => hj h.symm) _ _,
        getD_set_ne _ _ _ (fun h => hj h.symm) _ _⟩
    · rw [dibujar_punto_no_escribe fb x y prof hprof]
      exact ⟨by rw [hwc]; exact indice_lt hx hy,
        by rw [hwp]; exact indice_lt hx hy,
        fun j _ => ⟨rfl, rfl⟩, rfl, rfl, rfl, rfl, rfl, rfl⟩

/-- Witness for C9: an out-of-bounds draw on a 2×2 buffer is a no-op. -/
theorem C9_witness :
    (BufferDePantalla.nuevo 2 2).dibujar_punto 5 0 ((1 : ℚ) : Prof) =
      BufferDePantalla.nuevo 2 2 := by
  exact (C9_dibujar_punto_marco (BufferDePantalla.nuevo 2 2) 5 0
    ((1 : ℚ) : Prof)).1 (by decide)

-- =========================================================================
-- Sequences of draw calls (for claims C3 and C4)
-- =========================================================================

/-- One frame-buffer write as the spec describes it: the caller sets its
draw color via `establecer_color_actual` and then calls `dibujar_punto`. -/
structure Escritura where
  x : ℕ
  y : ℕ
  prof : Prof
  color : ℕ
deriving DecidableEq

/-- Perform one write: `establecer_color_actual` followed by
`dibujar_punto`. -/
def aplicarEscritura (fb : BufferDePantalla) (w : Escritura) :
    BufferDePantalla :=
  (fb.establecer_color_actual w.color).dibujar_punto w.x w.y w.prof

/-- Perform a sequence of writes in order. -/
def aplicarEscrituras (fb : BufferDePantalla) (ws : List Escritura) :
    BufferDePantalla :=
  ws.foldl aplicarEscritura fb

/-- The effect of one write on a single pixel's (color, depth) pair. -/
def pixStep : ℕ × Prof → Escritura → ℕ × Prof := fun cd w =>
  if w.prof < cd.2 then (w.color, w.prof) else cd

theorem dibujar_punto_campos (fb : BufferDePantalla) (x y : ℕ)
    (prof : Prof) :
    (fb.dibujar_punto x y prof).ancho = fb.ancho ∧
    (fb.dibujar_punto x y prof).alto = fb.alto ∧
    (fb.dibujar_punto x y prof).color_fondo = fb.color_fondo ∧
    (fb.dibujar_punto x y prof).color_actual = fb.color_actual ∧
    (fb.dibujar_punto x y prof).buffer_colores.length =
      fb.buffer_colores.length ∧
    (fb.dibujar_punto x y prof).buffer_profundidad.length =
      fb.buffer_profundidad.length := by
  by_cases hin : x < fb.ancho ∧ y < fb.alto
  · by_cases hprof : prof <
        fb.buffer_profundidad.getD (y * fb.ancho + x) ⊤
    · rw [dibujar_punto_escribe fb x y prof hin.1 hin.2 hprof]
      exact ⟨rfl, rfl, rfl, rfl, by simp, by simp⟩
    · rw [dibujar_punto_no_escribe fb x y prof hprof]
      exact ⟨rfl, rfl, rfl, rfl, rfl, rfl⟩
  · rw [dibujar_punto_fuera fb x y prof hin]
    exact ⟨rfl, rfl, rfl, rfl, rfl, rfl⟩

theorem aplicarEscritura_campos (fb : BufferDePantalla) (w : Escritura) :
    (aplicarEscritura fb w).ancho = fb.ancho ∧
    (aplicarEscritura fb w).alto = fb.alto ∧
    (aplicarEscritura fb w).buffer_colores.length =
      fb.buffer_colores.length ∧
    (aplicarEscritura fb w).buffer_profundidad.length =
      fb.buffer_profundidad.length := by
  unfold aplicarEscritura
  obtain ⟨h1, h2, _, _, h5, h6⟩ :=
    dibujar_punto_campos (fb.establecer_color_actual w.color) w.x w.y w.prof
  exact ⟨h1, h2, h5, h6⟩

theorem aplicarEscritura_bienFormado (fb : BufferDePantalla)
    (w : Escritura) (h : fb.bienFormado) :
    (aplicarEscritura fb w).bienFormado := by
  obtain ⟨h1, h2, h3, h4⟩ := aplicarEscritura_campos fb w
  exact ⟨by rw [h3, h1, h2]; exact h.1, by rw [h4, h1, h2]; exact h.2⟩

/-- Index arithmetic: two distinct in-bounds pixels have distinct
row-major indices. -/
theorem indice_inj {w x y x' y' : ℕ} (hx : x < w) (hx' : x' < w)
    (h : y' * w + x' = y * w + x) : x' = x ∧ y' = y := by
  have hw : 0 < w := Nat.lt_of_le_of_lt (Nat.zero_le x) hx
  have hx'' : x' = x := by
    have e1 : (w * y' + x') % w = x' % w := Nat.mul_add_mod w y' x'
    have e2 : (w * y + x) % w = x % w := Nat.mul_add_mod w y x
    have e3 : w * y' + x' = w * y + x := by
      have c1 : w * y' = y' * w := Nat.mul_comm w y'
      have c2 : w * y = y * w := Nat.mul_comm w y
      omega
    rw [e3, e2] at e1
    rw [Nat.mod_eq_of_lt hx, Nat.mod_eq_of_lt hx'] at e1
    omega
  refine ⟨hx'', ?_⟩
  have hy : y' * w = y * w := by omega
  exact Nat.eq_of_mul_eq_mul_right hw hy

theorem dibujar_punto_prof_mono (fb : BufferDePantalla) (x y : ℕ)
    (prof : Prof) (i : ℕ) :
    (fb.dibujar_punto x y prof).buffer_profundidad.getD i ⊤ ≤
      fb.buffer_profundidad.getD i ⊤ := by
  by_cases hin : x < fb.ancho ∧ y < fb.alto
  · by_cases hpf : prof < fb.buffer_profundidad.getD (y * fb.ancho + x) ⊤
    · rw [dibujar_punto_escribe fb x y prof hin.1 hin.2 hpf]
      show (fb.buffer_profundidad.set (y * fb.ancho + x) prof).getD i ⊤ ≤
        fb.buffer_profundidad.getD i ⊤
      by_cases hij : i = y * fb.ancho + x
      · rw [hij]
        by_cases hlen : y * fb.ancho + x < fb.buffer_profundidad.length
        · rw [getD_set_self _ _ hlen]
          exact le_of_lt hpf
        · rw [List.set_eq_of_length_le (by omega)]
      · rw [getD_set_ne _ _ _ (fun h => hij h.symm)]
    · rw [dibujar_punto_no_escribe fb x y prof hpf]
  · rw [dibujar_punto_fuera fb x y prof hin]

theorem aplicarEscrituras_prof_mono :
    ∀ (ws : List Escritura) (fb : BufferDePantalla) (i : ℕ),
      (aplicarEscrituras fb ws).buffer_profundidad.getD i ⊤ ≤
        fb.buffer_profundidad.getD i ⊤ := by
  intro ws
  induction ws with
  | nil => intro fb i; exact le_rfl
  | cons w ws ih =>
    intro fb i
    have hstep : aplicarEscrituras fb (w :: ws) =
        aplicarEscrituras (aplicarEscritura fb w) ws := rfl
    rw [hstep]
    refine le_trans (ih (aplicarEscritura fb w) i) ?_
    exact dibujar_punto_prof_mono (fb.establecer_color_actual w.color)
      w.x w.y w.prof i

theorem aplicarEscrituras_pixel (x y : ℕ) :
    ∀ (ws : List Escritura) (fb : BufferDePantalla), fb.bienFormado →
      x < fb.ancho → y < fb.alto →
      ((aplicarEscrituras fb ws).buffer_colores.getD (y * fb.ancho + x) 0,
        (aplicarEscrituras fb ws).buffer_profundidad.getD
          (y * fb.ancho + x) ⊤) =
        List.foldl pixStep
          (fb.buffer_colores.getD (y * fb.ancho + x) 0,
            fb.buffer_profundidad.getD (y * fb.ancho + x) ⊤)
          (ws.filter (fun w => w.x == x && w.y == y)) := by
  intro ws
  induction ws with
  | nil => intro fb _ _ _; rfl
  | cons w ws ih =>
    intro fb hwf hx hy
    obtain ⟨ha, hal, hc, hp⟩ := aplicarEscritura_campos fb w
    have hwf' : (aplicarEscritura fb w).bienFormado :=
      aplicarEscritura_bienFormado fb w hwf
    have hx' : x < (aplicarEscritura fb w).ancho := by rw [ha]; exact hx
    have hy' : y < (aplicarEscritura fb w).alto := by rw [hal]; exact hy
    have hstep : aplicarEscrituras fb (w :: ws) =
        aplicarEscrituras (aplicarEscritura fb w) ws := rfl
    rw [hstep]
    have hrec := ih (aplicarEscritura fb w) hwf' hx' hy'
    rw [ha] at hrec
    rw [hrec]
    obtain ⟨wx, wy, wp, wc⟩ := w
    by_cases htgt : (wx == x && wy == y) = true
    · have hfil : List.filter (fun w : Escritura => w.x == x && w.y == y)
          (⟨wx, wy, wp, wc⟩ :: ws) =
          ⟨wx, wy, wp, wc⟩ ::
            List.filter (fun w : Escritura => w.x == x && w.y == y) ws := by
        simp [List.filter_cons, htgt]
      rw [hfil]
      have hxy : wx = x ∧ wy = y := by simpa using htgt
      obtain ⟨hxe, hye⟩ := hxy
      subst hxe
      subst hye
      show _ = List.foldl pixStep
        (pixStep (fb.buffer_colores.getD (wy * fb.ancho + wx) 0,
          fb.buffer_profundidad.getD (wy * fb.ancho + wx) ⊤)
          ⟨wx, wy, wp, wc⟩) _
      congr 1
      by_cases hpf : wp <
          fb.buffer_profundidad.getD (wy * fb.ancho + wx) ⊤
      · have hesc := dibujar_punto_escribe
          (fb.establecer_color_actual wc) wx wy wp hx hy hpf
        show ((aplicarEscritura fb ⟨wx, wy, wp, wc⟩).buffer_colores.getD
            (wy * fb.ancho + wx) 0, _) = _
        rw [show aplicarEscritura fb ⟨wx, wy, wp, wc⟩ =
            (fb.establecer_color_actual wc).dibujar_punto wx wy wp from rfl,
          hesc]
        have hlen1 : wy * fb.ancho + wx < fb.buffer_colores.length := by
          rw [hwf.1]; exact indice_lt hx hy
        have hlen2 : wy * fb.ancho + wx < fb.buffer_profundidad.length := by
          rw [hwf.2]; exact indice_lt hx hy
        rw [show pixStep (fb.buffer_colores.getD (wy * fb.ancho + wx) 0,
            fb.buffer_profundidad.getD (wy * fb.ancho + wx) ⊤)
            ⟨wx, wy, wp, wc⟩ = (wc, wp) from if_pos hpf]
        exact Prod.ext (getD_set_self _ _ hlen1 _ _)
          (getD_set_self _ _ hlen2 _ _)
      · have hno := dibujar_punto_no_escribe
          (fb.establecer_color_actual wc) wx wy wp hpf
        rw [show aplicarEscritura fb ⟨wx, wy, wp, wc⟩ =
            (fb.establecer_color_actual wc).dibujar_punto wx wy wp from rfl,
          hno]
        rw [show pixStep (fb.buffer_colores.getD (wy * fb.ancho + wx) 0,
            fb.buffer_profundidad.getD (wy * fb.ancho + wx) ⊤)
            ⟨wx, wy, wp, wc⟩ =
            (fb.buffer_colores.getD (wy * fb.ancho + wx) 0,
              fb.buffer_profundidad.getD (wy * fb.ancho + wx) ⊤)
            from if_neg hpf]
        rfl
    · have hfil : List.filter (fun w : Escritura => w.x == x && w.y == y)
          (⟨wx, wy, wp, wc⟩ :: ws) =
          List.filter (fun w : Escritura => w.x == x && w.y == y) ws := by
        simp [List.filter_cons, htgt]
      rw [hfil]
      congr 1
      by_cases hin : wx < fb.ancho ∧ wy < fb.alto
      · by_cases hpf : wp <
            fb.buffer_profundidad.getD (wy * fb.ancho + wx) ⊤
        · have hesc := dibujar_punto_escribe
            (fb.establecer_color_actual wc) wx wy wp hin.1 hin.2 hpf
          rw [show aplicarEscritura fb ⟨wx, wy, wp, wc⟩ =
              (fb.establecer_color_actual wc).dibujar_punto wx wy wp
              from rfl, hesc]
          have hne : wy * fb.ancho + wx ≠ y * fb.ancho + x := by
            intro he
            obtain ⟨he1, he2⟩ := indice_inj hx hin.1 he
            exact htgt (by rw [he1, he2]; simp)
          exact Prod.ext (getD_set_ne _ _ _ hne _ _)
            (getD_set_ne _ _ _ hne _ _)
        · have hno := dibujar_punto_no_escribe
            (fb.establecer_color_actual wc) wx wy wp hpf
          rw [show aplicarEscritura fb ⟨wx, wy, wp, wc⟩ =
              (fb.establecer_color_actual wc).dibujar_punto wx wy wp
              from rfl, hno]
          rfl
      · have hfuera := dibujar_punto_fuera
          (fb.establecer_color_actual wc) wx wy wp hin
        rw [show aplicarEscritura fb ⟨wx, wy, wp, wc⟩ =
            (fb.establecer_color_actual wc).dibujar_punto wx wy wp
            from rfl, hfuera]
        rfl

/-- Folding `pixStep` over a list of writes either leaves the pixel
untouched (every write at or beyond the current depth) or lands the pixel
on some write that attains the minimum depth of the list. -/
theorem foldl_pixStep_caracterizacion :
    ∀ (pws : List Escritura) (c : ℕ) (d : Prof),
      (List.foldl pixStep (c, d) pws = (c, d) ∧ ∀ w ∈ pws, d ≤ w.prof) ∨
      (∃ w ∈ pws, (List.foldl pixStep (c, d) pws).1 = w.color ∧
        (List.foldl pixStep (c, d) pws).2 = w.prof ∧ w.prof < d ∧
        ∀ w' ∈ pws, w.prof ≤ w'.prof) := by
  intro pws
  induction pws with
  | nil =>
    intro c d
    left
    exact ⟨rfl, by simp⟩
  | cons w ws ih =>
    intro c d
    by_cases hpf : w.prof < d
    · have hstep : List.foldl pixStep (c, d) (w :: ws) =
          List.foldl pixStep (w.color, w.prof) ws := by
        show List.foldl pixStep (pixStep (c, d) w) ws = _
        rw [show pixStep (c, d) w = (w.color, w.prof) from if_pos hpf]
      rcases ih w.color w.prof with ⟨heq, hall⟩ | ⟨w2, hmem, hcol, hprof, hlt, hall⟩
      · right
        refine ⟨w, List.mem_cons_self w ws, ?_, ?_, hpf, ?_⟩
        · rw [hstep, heq]
        · rw [hstep, heq]
        · intro w' hw'
          rcases List.mem_cons.mp hw' with he | hm
          · rw [he]
          · exact hall w' hm
      · right
        refine ⟨w2, List.mem_cons_of_mem w hmem, ?_, ?_,
          lt_trans hlt hpf, ?_⟩
        · rw [hstep]; exact hcol
        · rw [hstep]; exact hprof
        · intro w' hw'
          rcases List.mem_cons.mp hw' with he | hm
          · rw [he]; exact le_of_lt hlt
          · exact hall w' hm
    · have hstep : List.foldl pixStep (c, d) (w :: ws) =
          List.foldl pixStep (c, d) ws := by
        show List.foldl pixStep (pixStep (c, d) w) ws = _
        rw [show pixStep (c, d) w = (c, d) from if_neg hpf]
      rcases ih c d with ⟨heq, hall⟩ | ⟨w2, hmem, hcol, hprof, hlt, hall⟩
      · left
        refine ⟨by rw [hstep]; exact heq, ?_⟩
        intro w' hw'
        rcases List.mem_cons.mp hw' with he | hm
        · rw [he]; exact not_lt.mp hpf
        · exact hall w' hm
      · right
        refine ⟨w2, List.mem_cons_of_mem w hmem, ?_, ?_, hlt, ?_⟩
        · rw [hstep]; exact hcol
        · rw [hstep]; exact hprof
        · intro w' hw'
          rcases List.mem_cons.mp hw' with he | hm
          · rw [he]
            exact le_trans (le_of_lt hlt) (not_lt.mp hpf)
          · exact hall w' hm

-- =========================================================================
-- Claim C3
-- =========================================================================

/-- C3: over any sequence of writes (each one `establecer_color_actual`
followed by `dibujar_punto`), every stored depth only ever decreases, and a
pixel of a fresh (depth `= ⊤`) frame that receives at least one write of
finite depth ends at the color and depth of a write attaining the minimum
depth among the writes addressed to it. -/
theorem C3_profundidad_decrece_color_minimo :
    (∀ (fb : BufferDePantalla) (ws : List Escritura) (i : ℕ),
        (aplicarEscrituras fb ws).buffer_profundidad.getD i ⊤ ≤
          fb.buffer_profundidad.getD i ⊤) ∧
    (∀ (fb : BufferDePantalla) (ws : List Escritura) (x y : ℕ),
        fb.bienFormado → x < fb.ancho → y < fb.alto →
        fb.buffer_profundidad.getD (y * fb.ancho + x) ⊤ = ⊤ →
        (∃ w ∈ ws.filter (fun w => w.x == x && w.y == y), w.prof < ⊤) →
        ∃ w ∈ ws.filter (fun w => w.x == x && w.y == y),
          (aplicarEscrituras fb ws).buffer_colores.getD
            (y * fb.ancho + x) 0 = w.color ∧
          (aplicarEscrituras fb ws).buffer_profundidad.getD
            (y * fb.ancho + x) ⊤ = w.prof ∧
          ∀ w' ∈ ws.filter (fun w => w.x == x && w.y == y),
            w.prof ≤ w'.prof) := by
  constructor
  · intro fb ws i
    exact aplicarEscrituras_prof_mono ws fb i
  · intro fb ws x y hwf hx hy htop hfin
    have hloc := aplicarEscrituras_pixel x y ws fb hwf hx hy
    rcases foldl_pixStep_caracterizacion
        (ws.filter (fun w => w.x == x && w.y == y))
        (fb.buffer_colores.getD (y * fb.ancho + x) 0)
        (fb.buffer_profundidad.getD (y * fb.ancho + x) ⊤) with
      ⟨_, hall⟩ | ⟨w, hmem, hcol, hprof, _, hall⟩
    · exfalso
      obtain ⟨w, hmem, hwlt⟩ := hfin
      have := hall w hmem
      rw [htop] at this
      exact absurd (lt_of_lt_of_le hwlt this) (lt_irrefl _)
    · refine ⟨w, hmem, ?_, ?_, hall⟩
      · have h1 := congrArg Prod.fst hloc
        simpa using h1.trans hcol
      · have h2 := congrArg Prod.snd hloc
        simpa using h2.trans hprof

/-- Witness for C3: three writes to pixel (0,0) of a fresh 1×1 buffer at
depths 2, 1, 3; the final pixel must reflect the depth-1 write. -/
theorem C3_witness :
    ∃ w ∈ ([⟨0, 0, ((2 : ℚ) : Prof), 10⟩, ⟨0, 0, ((1 : ℚ) : Prof), 20⟩,
          ⟨0, 0, ((3 : ℚ) : Prof), 30⟩] : List Escritura).filter
        (fun w => w.x == 0 && w.y == 0),
      (aplicarEscrituras (BufferDePantalla.nuevo 1 1)
          [⟨0, 0, ((2 : ℚ) : Prof), 10⟩, ⟨0, 0, ((1 : ℚ) : Prof), 20⟩,
            ⟨0, 0, ((3 : ℚ) : Prof), 30⟩]).buffer_colores.getD
        (0 * (BufferDePantalla.nuevo 1 1).ancho + 0) 0 = w.color ∧
      (aplicarEscrituras (BufferDePantalla.nuevo 1 1)
          [⟨0, 0, ((2 : ℚ) : Prof), 10⟩, ⟨0, 0, ((1 : ℚ) : Prof), 20⟩,
            ⟨0, 0, ((3 : ℚ) : Prof), 30⟩]).buffer_profundidad.getD
        (0 * (BufferDePantalla.nuevo 1 1).ancho + 0) ⊤ = w.prof ∧
      ∀ w' ∈ ([⟨0, 0, ((2 : ℚ) : Prof), 10⟩, ⟨0, 0, ((1 : ℚ) : Prof), 20⟩,
            ⟨0, 0, ((3 : ℚ) : Prof), 30⟩] : List Escritura).filter
          (fun w => w.x == 0 && w.y == 0),
        w.prof ≤ w'.prof := by
  exact C3_profundidad_decrece_color_minimo.2 (BufferDePantalla.nuevo 1 1)
    [⟨0, 0, ((2 : ℚ) : Prof), 10⟩, ⟨0, 0, ((1 : ℚ) : Prof), 20⟩,
      ⟨0, 0, ((3 : ℚ) : Prof), 30⟩] 0 0 (by decide) (by decide) (by decide)
    (by decide) ⟨⟨0, 0, ((2 : ℚ) : Prof), 10⟩, by decide, by decide⟩

-- =========================================================================
-- Claim C4
-- =========================================================================

/-- C4: two writes to the same fresh pixel at depths `p1 < p2` (each write
setting its own draw color first) leave the pixel at the nearer write's
color `c1` and depth `p1` in either order. -/
theorem C4_orden_independiente (fb : BufferDePantalla) (x y : ℕ)
    (p1 p2 : Prof) (c1 c2 : ℕ) (hwf : fb.bienFormado)
    (hx : x < fb.ancho) (hy : y < fb.alto)
    (htop : fb.buffer_profundidad.getD (y * fb.ancho + x) ⊤ = ⊤)
    (hlt : p1 < p2) :
    ((aplicarEscrituras fb
        [⟨x, y, p1, c1⟩, ⟨x, y, p2, c2⟩]).buffer_colores.getD
          (y * fb.ancho + x) 0 = c1 ∧
      (aplicarEscrituras fb
        [⟨x, y, p1, c1⟩, ⟨x, y, p2, c2⟩]).buffer_profundidad.getD
          (y * fb.ancho + x) ⊤ = p1) ∧
    ((aplicarEscrituras fb
        [⟨x, y, p2, c2⟩, ⟨x, y, p1, c1⟩]).buffer_colores.getD
          (y * fb.ancho + x) 0 = c1 ∧
      (aplicarEscrituras fb
        [⟨x, y, p2, c2⟩, ⟨x, y, p1, c1⟩]).buffer_profundidad.getD
          (y * fb.ancho + x) ⊤ = p1) := by
  have hp1top : p1 < (⊤ : Prof) := lt_of_lt_of_le hlt le_top
  have hloc1 := aplicarEscrituras_pixel x y
    [⟨x, y, p1, c1⟩, ⟨x, y, p2, c2⟩] fb hwf hx hy
  have hloc2 := aplicarEscrituras_pixel x y
    [⟨x, y, p2, c2⟩, ⟨x, y, p1, c1⟩] fb hwf hx hy
  rw [htop] at hloc1 hloc2
  have hfil1 : ([⟨x, y, p1, c1⟩, ⟨x, y, p2, c2⟩] : List Escritura).filter
      (fun w => w.x == x && w.y == y) =
      [⟨x, y, p1, c1⟩, ⟨x, y, p2, c2⟩] := by
    simp [List.filter_cons]
  have hfil2 : ([⟨x, y, p2, c2⟩, ⟨x, y, p1, c1⟩] : List Escritura).filter
      (fun w => w.x == x && w.y == y) =
      [⟨x, y, p2, c2⟩, ⟨x, y, p1, c1⟩] := by
    simp [List.filter_cons]
  rw [hfil1] at hloc1
  rw [hfil2] at hloc2
  have hfold1 : List.foldl pixStep
      (fb.buffer_colores.getD (y * fb.ancho + x) 0, (⊤ : Prof))
      [⟨x, y, p1, c1⟩, ⟨x, y, p2, c2⟩] = (c1, p1) := by
    show pixStep (pixStep
      (fb.buffer_colores.getD (y * fb.ancho + x) 0, (⊤ : Prof))
      ⟨x, y, p1, c1⟩) ⟨x, y, p2, c2⟩ = (c1, p1)
    rw [show pixStep
        (fb.buffer_colores.getD (y * fb.ancho + x) 0, (⊤ : Prof))
        ⟨x, y, p1, c1⟩ = (c1, p1) from if_pos hp1top]
    exact if_neg (lt_asymm hlt)
  have hfold2 : List.foldl pixStep
      (fb.buffer_colores.getD (y * fb.ancho + x) 0, (⊤ : Prof))
      [⟨x, y, p2, c2⟩, ⟨x, y, p1, c1⟩] = (c1, p1) := by
    show pixStep (pixStep
      (fb.buffer_colores.getD (y * fb.ancho + x) 0, (⊤ : Prof))
      ⟨x, y, p2, c2⟩) ⟨x, y, p1, c1⟩ = (c1, p1)
    by_cases hp2 : p2 < (⊤ : Prof)
    · rw [show pixStep
          (fb.buffer_colores.getD (y * fb.ancho + x) 0, (⊤ : Prof))
          ⟨x, y, p2, c2⟩ = (c2, p2) from if_pos hp2]
      exact if_pos hlt
    · rw [show pixStep
          (fb.buffer_colores.getD (y * fb.ancho + x) 0, (⊤ : Prof))
          ⟨x, y, p2, c2⟩ =
          (fb.buffer_colores.getD (y * fb.ancho + x) 0, (⊤ : Prof))
          from if_neg hp2]
      exact if_pos hp1top
  have h1 := hloc1.trans hfold1
  have h2 := hloc2.trans hfold2
  rw [Prod.mk.injEq] at h1 h2
  exact ⟨⟨h1.1, h1.2⟩, ⟨h2.1, h2.2⟩⟩

/-- Witness for C4: writes at depths 1 and 2 with colors 10 and 20 on a
fresh 1×1 buffer leave color 10 in both orders. -/
theorem C4_witness :
    (aplicarEscrituras (BufferDePantalla.nuevo 1 1)
        [⟨0, 0, ((1 : ℚ) : Prof), 10⟩,
          ⟨0, 0, ((2 : ℚ) : Prof), 20⟩]).buffer_colores.getD
      (0 * (BufferDePantalla.nuevo 1 1).ancho + 0) 0 = 10 ∧
    (aplicarEscrituras (BufferDePantalla.nuevo 1 1)
        [⟨0, 0, ((2 : ℚ) : Prof), 20⟩,
          ⟨0, 0, ((1 : ℚ) : Prof), 10⟩]).buffer_colores.getD
      (0 * (BufferDePantalla.nuevo 1 1).ancho + 0) 0 = 10 := by
  have h := C4_orden_independiente (BufferDePantalla.nuevo 1 1) 0 0
    ((1 : ℚ) : Prof) ((2 : ℚ) : Prof) 10 20 (by decide) (by decide)
    (by decide) (by decide) (by decide)
  exact ⟨h.1.1, h.2.1⟩

-- =========================================================================
-- Sphere mesh generator (fn generar_esfera, main.rs lines 375-416)
-- =========================================================================

/-- `VerticeEsfera { posicion: [f32; 3], normal: [f32; 3] }`
(main.rs lines 347-352), with f32 triples modelled as real triples. -/
structure VerticeEsfera where
  posicion : ℝ × ℝ × ℝ
  normal : ℝ × ℝ × ℝ

/-- The vertex loop of `generar_esfera` (main.rs lines 379-398):
`for latitud in 0..=subdivisiones { for longitud in 0..=subdivisiones {
push VerticeEsfera { posicion: [x,y,z], normal: [x,y,z] } } }` with
`theta = latitud * PI / subdivisiones`,
`phi = longitud * 2.0 * PI / subdivisiones`,
`x = sin theta * cos phi`, `y = cos theta`, `z = sin theta * sin phi`.
This def is the only noncomputable one (real `sin`/`cos` model `f32`
trigonometry); note Lean's `x / 0 = 0` whereas f32 gives `inf`/NaN, so
facts about vertex values are only claimed for `0 < subdivisiones`. -/
noncomputable def esferaVertices (subdivisiones : ℕ) : List VerticeEsfera :=
  (List.range (subdivisiones + 1)).flatMap (fun (latitud : ℕ) =>
    (List.range (subdivisiones + 1)).map (fun (longitud : ℕ) =>
      let theta : ℝ := (latitud : ℝ) * Real.pi / (subdivisiones : ℝ)
      let phi : ℝ := (longitud : ℝ) * 2 * Real.pi / (subdivisiones : ℝ)
      let coord_x : ℝ := Real.sin theta * Real.cos phi
      let coord_y : ℝ := Real.cos theta
      let coord_z : ℝ := Real.sin theta * Real.sin phi
      { posicion := (coord_x, coord_y, coord_z)
        normal := (coord_x, coord_y, coord_z) }))

/-- The index loop of `generar_esfera` (main.rs lines 400-413), on a
`Vec<u16>`: `primero = (lat * (subdivisiones + 1) + lon) as u16` (the sum
is computed in u32, hence the `% 2^32`, then truncated to u16),
`segundo = primero + subdivisiones as u16 + 1` (wrapping u16 additions,
release semantics), then pushes
`primero, segundo, primero+1, segundo, segundo+1, primero+1`. -/
def esferaIndices (subdivisiones : ℕ) : List ℕ :=
  (List.range subdivisiones).flatMap (fun lat =>
    (List.range subdivisiones).flatMap (fun lon =>
      let primero := ((lat * (subdivisiones + 1) + lon) % 2 ^ 32) % 2 ^ 16
      let segundo :=
        ((primero + subdivisiones % 2 ^ 16) % 2 ^ 16 + 1) % 2 ^ 16
      [primero, segundo, (primero + 1) % 2 ^ 16,
        segundo, (segundo + 1) % 2 ^ 16, (primero + 1) % 2 ^ 16]))

/-- `generar_esfera` returns the vertex vector and the index vector. -/
noncomputable def generar_esfera (subdivisiones : ℕ) :
    List VerticeEsfera × List ℕ :=
  (esferaVertices subdivisiones, esferaIndices subdivisiones)

/-- Length of a `flatMap` whose blocks all have the same length. -/
theorem length_flatMap_const {α β : Type} (l : List α) (f : α → List β)
    (k : ℕ) (h : ∀ a ∈ l, (f a).length = k) :
    (l.flatMap f).length = l.length * k := by
  induction l with
  | nil => simp
  | cons a l ih =>
    rw [List.flatMap_cons, List.length_append,
      h a (List.mem_cons_self a l),
      ih (fun a ha => h a (List.mem_cons_of_mem _ ha)), List.length_cons]
    ring

/-- Length of a `flatMap` of constant-length blocks over `List.range`. -/
theorem length_flatMap_range {β : Type} (k : ℕ) (f : ℕ → List β)
    (h : ∀ a, (f a).length = k) :
    ∀ m, ((List.range m).flatMap f).length = m * k := by
  intro m
  induction m with
  | zero => simp
  | succ m ih =>
    rw [List.range_succ, List.flatMap_append _ _ _, List.length_append, ih]
    have hm : ([m].flatMap f).length = k := by
      rw [List.flatMap_cons, List.flatMap_nil, List.append_nil]
      exact h m
    rw [hm]
    ring

theorem esferaVertices_length (n : ℕ) :
    (esferaVertices n).length = (n + 1) * (n + 1) := by
  unfold esferaVertices
  exact length_flatMap_range (n + 1) _
    (fun a => by rw [List.length_map, List.length_range]) (n + 1)

theorem esferaIndices_length (n : ℕ) :
    (esferaIndices n).length = n * n * 6 := by
  unfold esferaIndices
  rw [show n * n * 6 = n * (n * 6) from by ring]
  refine length_flatMap_range (n * 6) _ ?_ n
  intro lat
  refine length_flatMap_range 6 _ ?_ n
  intro lon
  rfl

/-- Every index emitted by `esferaIndices` is below the vertex count
`(n+1)*(n+1)`: for `n ≤ 254` no u16 truncation occurs and the raw bound
holds; for larger `n` every truncated index is below `2^16 ≤ (n+1)^2`. -/
theorem esferaIndices_lt (n : ℕ) :
    ∀ idx ∈ esferaIndices n, idx < (n + 1) * (n + 1) := by
  intro idx hidx
  unfold esferaIndices at hidx
  obtain ⟨lat, hlat, hidx⟩ := List.mem_flatMap.mp hidx
  obtain ⟨lon, hlon, hidx⟩ := List.mem_flatMap.mp hidx
  rw [List.mem_range] at hlat hlon
  simp only [List.mem_cons, List.not_mem_nil, or_false] at hidx
  by_cases hn : n ≤ 254
  · have h1 : lat * (n + 1) + (n + 1) ≤ n * (n + 1) := by
      have hstep := Nat.mul_le_mul_right (n + 1)
        (show lat + 1 ≤ n from by omega)
      calc lat * (n + 1) + (n + 1) = (lat + 1) * (n + 1) := by ring
        _ ≤ n * (n + 1) := hstep
    have h2 : n * (n + 1) ≤ 64770 := by
      calc n * (n + 1) ≤ 254 * 255 := Nat.mul_le_mul (by omega) (by omega)
        _ = 64770 := by norm_num
    have h3 : (n + 1) * (n + 1) = n * (n + 1) + (n + 1) := by ring
    set A := lat * (n + 1)
    set B := n * (n + 1)
    set C := (n + 1) * (n + 1)
    clear_value A B C
    omega
  · have hbig : 2 ^ 16 ≤ (n + 1) * (n + 1) := by
      calc (2 : ℕ) ^ 16 = 256 * 256 := by norm_num
        _ ≤ (n + 1) * (n + 1) := Nat.mul_le_mul (by omega) (by omega)
    set A := lat * (n + 1)
    set C := (n + 1) * (n + 1)
    clear_value A C
    omega

-- =========================================================================
-- Claim C5
-- =========================================================================

/-- C5: `generar_esfera n` produces exactly `(n+1)*(n+1)` vertices — the
mesh has `R = n+1` vertex rings and `S = n+1` vertex sectors, so `R*S`
vertices — and `n*n*6 = (R-1)*(S-1)*6` triangle indices, and every emitted
index is strictly below the vertex count. -/
theorem C5_generar_esfera_conteos (n : ℕ) :
    (generar_esfera n).1.length = (n + 1) * (n + 1) ∧
    (generar_esfera n).2.length = n * n * 6 ∧
    ∀ idx ∈ (generar_esfera n).2, idx < (generar_esfera n).1.length := by
  refine ⟨esferaVertices_length n, esferaIndices_length n, ?_⟩
  intro idx hidx
  rw [show (generar_esfera n).1.length = (n + 1) * (n + 1) from
    esferaVertices_length n]
  exact esferaIndices_lt n idx hidx

/-- Witness for C5 at `n = 2`: index 3 is emitted and is below the vertex
count 9. -/
theorem C5_witness :
    3 ∈ (generar_esfera 2).2 ∧ 3 < (generar_esfera 2).1.length := by
  have hmem : 3 ∈ (generar_esfera 2).2 := by
    show 3 ∈ esferaIndices 2
    decide
  exact ⟨hmem, (C5_generar_esfera_conteos 2).2.2 3 hmem⟩

-- =========================================================================
-- Claim C7
-- =========================================================================

/-- C7 counterexample: the degenerate subdivision count 0 (one vertex ring
and one vertex sector, i.e. fewer than 2 of each) is NOT rejected:
`generar_esfera 0` returns normally with a degenerate mesh of one vertex
and no indices — there is no error path in the function at all. -/
theorem C7_counterexample :
    (generar_esfera 0).2 = [] ∧ (generar_esfera 0).1.length = 1 := by
  constructor
  · show esferaIndices 0 = []
    rfl
  · show (esferaVertices 0).length = 1
    rw [esferaVertices_length 0]

/-- C7 amended: `generar_esfera` performs no validation of its subdivision
count; for every `n` (including the degenerate `n = 0`, whose step-size
division by zero produces NaN coordinates in the f32 code) it returns
normally with `(n+1)*(n+1)` vertices and `n*n*6` indices. -/
theorem C7_sin_validacion (n : ℕ) :
    (generar_esfera n).1.length = (n + 1) * (n + 1) ∧
    (generar_esfera n).2.length = n * n * 6 :=
  ⟨esferaVertices_length n, esferaIndices_length n⟩

-- =========================================================================
-- Claim C6
-- =========================================================================

/-- Indexing a `flatMap` of equally long mapped blocks over ranges. -/
theorem getElem?_flatMap_range_map {β : Type} (k : ℕ) (g : ℕ → ℕ → β) :
    ∀ (m i j : ℕ), i < m → j < k →
      ((List.range m).flatMap
        (fun a => (List.range k).map (g a)))[i * k + j]? = some (g i j) := by
  intro m
  induction m with
  | zero =>
    intro i j hi _
    exact absurd hi (Nat.not_lt_zero i)
  | succ m ih =>
    intro i j hi hj
    rw [List.range_succ, List.flatMap_append _ _ _]
    have hlen : ((List.range m).flatMap
        (fun a => (List.range k).map (g a))).length = m * k :=
      length_flatMap_range k _
        (fun a => by rw [List.length_map, List.length_range]) m
    rcases Nat.lt_or_ge i m with him | him
    · have hlt : i * k + j < m * k := by
        have e1 : (i + 1) * k = i * k + k := by ring
        have e2 : (i + 1) * k ≤ m * k := Nat.mul_le_mul_right k (by omega)
        omega
      rw [List.getElem?_append, if_pos (by rw [hlen]; exact hlt)]
      exact ih i j him hj
    · have hieq : i = m := by omega
      subst hieq
      rw [List.getElem?_append_right (by rw [hlen]; exact Nat.le_add_right _ j),
        hlen, show i * k + j - i * k = j from by omega,
        List.flatMap_cons, List.flatMap_nil, List.append_nil,
        List.getElem?_map]
      simp [List.getElem?_range, hj]

/-- C6: vertex `(lat, lon)` of the sphere mesh (stored at index
`lat*(n+1) + lon`) has position
`(sin θ cos φ, cos θ, sin θ sin φ)` for its parameters
`θ = lat·π/n`, `φ = lon·2π/n`; the generator builds a unit sphere
(radius 1), so the normal equals the position (the radius-normalized unit
direction) and the squared norm of the position is exactly 1 in the real
model (≈ radius within f32 tolerance). `0 < n` excludes the degenerate
step-size division by zero. -/
theorem C6_esfera_vertice_posicion (n lat lon : ℕ) (_hn : 0 < n)
    (hlat : lat ≤ n) (hlon : lon ≤ n) :
    ∃ v : VerticeEsfera,
      (esferaVertices n)[lat * (n + 1) + lon]? = some v ∧
      v.posicion =
        (Real.sin ((lat : ℝ) * Real.pi / (n : ℝ)) *
           Real.cos ((lon : ℝ) * 2 * Real.pi / (n : ℝ)),
         Real.cos ((lat : ℝ) * Real.pi / (n : ℝ)),
         Real.sin ((lat : ℝ) * Real.pi / (n : ℝ)) *
           Real.sin ((lon : ℝ) * 2 * Real.pi / (n : ℝ))) ∧
      v.normal = v.posicion ∧
      v.posicion.1 ^ 2 + v.posicion.2.1 ^ 2 + v.posicion.2.2 ^ 2 = 1 := by
  refine ⟨⟨(Real.sin ((lat : ℝ) * Real.pi / (n : ℝ)) *
         Real.cos ((lon : ℝ) * 2 * Real.pi / (n : ℝ)),
       Real.cos ((lat : ℝ) * Real.pi / (n : ℝ)),
       Real.sin ((lat : ℝ) * Real.pi / (n : ℝ)) *
         Real.sin ((lon : ℝ) * 2 * Real.pi / (n : ℝ))),
      (Real.sin ((lat : ℝ) * Real.pi / (n : ℝ)) *
         Real.cos ((lon : ℝ) * 2 * Real.pi / (n : ℝ)),
       Real.cos ((lat : ℝ) * Real.pi / (n : ℝ)),
       Real.sin ((lat : ℝ) * Real.pi / (n : ℝ)) *
         Real.sin ((lon : ℝ) * 2 * Real.pi / (n : ℝ)))⟩, ?_, rfl, rfl, ?_⟩
  · show (esferaVertices n)[lat * (n + 1) + lon]? = _
    unfold esferaVertices
    exact getElem?_flatMap_range_map (n + 1) _ (n + 1) lat lon
      (by omega) (by omega)
  · show (Real.sin ((lat : ℝ) * Real.pi / (n : ℝ)) *
        Real.cos ((lon : ℝ) * 2 * Real.pi / (n : ℝ))) ^ 2 +
        Real.cos ((lat : ℝ) * Real.pi / (n : ℝ)) ^ 2 +
        (Real.sin ((lat : ℝ) * Real.pi / (n : ℝ)) *
          Real.sin ((lon : ℝ) * 2 * Real.pi / (n : ℝ))) ^ 2 = 1
    linear_combination
      Real.sin ((lat : ℝ) * Real.pi / (n : ℝ)) ^ 2 *
        Real.sin_sq_add_cos_sq ((lon : ℝ) * 2 * Real.pi / (n : ℝ)) +
      Real.sin_sq_add_cos_sq ((lat : ℝ) * Real.pi / (n : ℝ))

/-- Witness for C6 at `n = 1`, vertex `(0, 0)`. -/
theorem C6_witness :
    ∃ v : VerticeEsfera,
      (esferaVertices 1)[0 * (1 + 1) + 0]? = some v ∧
      v.posicion =
        (Real.sin (((0 : ℕ) : ℝ) * Real.pi / ((1 : ℕ) : ℝ)) *
           Real.cos (((0 : ℕ) : ℝ) * 2 * Real.pi / ((1 : ℕ) : ℝ)),
         Real.cos (((0 : ℕ) : ℝ) * Real.pi / ((1 : ℕ) : ℝ)),
         Real.sin (((0 : ℕ) : ℝ) * Real.pi / ((1 : ℕ) : ℝ)) *
           Real.sin (((0 : ℕ) : ℝ) * 2 * Real.pi / ((1 : ℕ) : ℝ))) ∧
      v.normal = v.posicion ∧
      v.posicion.1 ^ 2 + v.posicion.2.1 ^ 2 + v.posicion.2.2 ^ 2 = 1 :=
  C6_esfera_vertice_posicion 1 0 0 (by norm_num) (by norm_num) (by norm_num)

-- =========================================================================
-- MÓDULO: OBJ LOADER (struct ModeloOBJ, main.rs lines 212-316)
-- =========================================================================

/-- nalgebra `Vec3` (f32 triple) for the OBJ loader, modelled with
rationals (no trigonometry is involved here). -/
abbrev Vec3Q := ℚ × ℚ × ℚ

/-- `Vertice` (main.rs lines 84-91). -/
structure Vertice where
  posicion : Vec3Q
  vector_normal : Vec3Q
  coordenadas_textura : Vec3Q
  posicion_transformada : Vec3Q
  normal_transformada : Vec3Q
deriving DecidableEq

/-- `Vertice::nuevo` (main.rs lines 94-102): the transformed fields start
out equal to the untransformed ones. -/
def Vertice.nuevo (pos norm tex : Vec3Q) : Vertice :=
  { posicion := pos
    vector_normal := norm
    coordenadas_textura := tex
    posicion_transformada := pos
    normal_transformada := norm }

/-- One `[usize; 9]` face record: slots `0,3,6` are position indices,
`1,4,7` texture indices, `2,5,8` normal indices. -/
structure Cara where
  v0 : ℕ
  t0 : ℕ
  n0 : ℕ
  v1 : ℕ
  t1 : ℕ
  n1 : ℕ
  v2 : ℕ
  t2 : ℕ
  n2 : ℕ
deriving DecidableEq

/-- `ModeloOBJ` (main.rs lines 212-217). -/
structure ModeloOBJ where
  vertices : List Vec3Q
  normales : List Vec3Q
  coordenadas_uv : List Vec3Q
  caras : List Cara
deriving DecidableEq

/-- `ModeloOBJ::obtener_array_vertices` (main.rs lines 294-315): for each
face and each of its three corners, fetch position/texture/normal by index
with `.get(i).copied().unwrap_or(default)` — out-of-range indices fall
back to the zero vector (position, texture) or `(0,1,0)` (normal) — and
push `Vertice::nuevo(posicion, normal, coord_tex)`. -/
def ModeloOBJ.obtener_array_vertices (m : ModeloOBJ) : List Vertice :=
  m.caras.flatMap (fun cara =>
    [Vertice.nuevo (m.vertices.getD cara.v0 (0, 0, 0))
        (m.normales.getD cara.n0 (0, 1, 0))
        (m.coordenadas_uv.getD cara.t0 (0, 0, 0)),
      Vertice.nuevo (m.vertices.getD cara.v1 (0, 0, 0))
        (m.normales.getD cara.n1 (0, 1, 0))
        (m.coordenadas_uv.getD cara.t1 (0, 0, 0)),
      Vertice.nuevo (m.vertices.getD cara.v2 (0, 0, 0))
        (m.normales.getD cara.n2 (0, 1, 0))
        (m.coordenadas_uv.getD cara.t2 (0, 0, 0))])

/-- Reading with a fallback yields a stored element or the fallback. -/
theorem getD_mem_or_default {α : Type} (l : List α) (i : ℕ) (d : α) :
    l.getD i d ∈ l ∨ l.getD i d = d := by
  rw [List.getD_eq_getElem?_getD]
  cases h : l[i]? with
  | none => right; rfl
  | some a =>
    left
    show a ∈ l
    exact List.getElem?_mem h

-- =========================================================================
-- Claim C10
-- =========================================================================

/-- C10: `obtener_array_vertices` is total (never panics in the model) and
returns exactly `3 *` the number of parsed faces; every produced vertex
has its position and texture coordinates either copied from the stored
arrays or replaced by the zero vector, and its normal either copied or
replaced by `(0, 1, 0)` — an out-of-range face index can only produce the
default, never an out-of-bounds access. -/
theorem C10_obtener_array_vertices_total (m : ModeloOBJ) :
    m.obtener_array_vertices.length = 3 * m.caras.length ∧
    ∀ v ∈ m.obtener_array_vertices,
      (v.posicion ∈ m.vertices ∨ v.posicion = ((0, 0, 0) : Vec3Q)) ∧
      (v.coordenadas_textura ∈ m.coordenadas_uv ∨
        v.coordenadas_textura = ((0, 0, 0) : Vec3Q)) ∧
      (v.vector_normal ∈ m.normales ∨
        v.vector_normal = ((0, 1, 0) : Vec3Q)) := by
  constructor
  · unfold ModeloOBJ.obtener_array_vertices
    rw [show 3 * m.caras.length = m.caras.length * 3 from by ring]
    refine length_flatMap_const _ _ 3 ?_
    intro cara _
    rfl
  · intro v hv
    unfold ModeloOBJ.obtener_array_vertices at hv
    obtain ⟨cara, _, hv⟩ := List.mem_flatMap.mp hv
    simp only [List.mem_cons, List.not_mem_nil, or_false] at hv
    rcases hv with h | h | h <;>
      (rw [h]
       exact ⟨getD_mem_or_default _ _ _, getD_mem_or_default _ _ _,
         getD_mem_or_default _ _ _⟩)

/-- Witness for C10: a model with empty arrays and one face whose indices
are all out of range yields the default vertex. -/
theorem C10_witness :
    Vertice.nuevo ((0, 0, 0) : Vec3Q) ((0, 1, 0) : Vec3Q)
        ((0, 0, 0) : Vec3Q) ∈
      (ModeloOBJ.mk [] [] [] [⟨5, 6, 7, 5, 6, 7, 5, 6, 7⟩]
        ).obtener_array_vertices ∧
    ((Vertice.nuevo ((0, 0, 0) : Vec3Q) ((0, 1, 0) : Vec3Q)
        ((0, 0, 0) : Vec3Q)).vector_normal ∈
        (ModeloOBJ.mk [] [] [] [⟨5, 6, 7, 5, 6, 7, 5, 6, 7⟩]).normales ∨
      (Vertice.nuevo ((0, 0, 0) : Vec3Q) ((0, 1, 0) : Vec3Q)
        ((0, 0, 0) : Vec3Q)).vector_normal = ((0, 1, 0) : Vec3Q)) := by
  have hmem : Vertice.nuevo ((0, 0, 0) : Vec3Q) ((0, 1, 0) : Vec3Q)
      ((0, 0, 0) : Vec3Q) ∈
      (ModeloOBJ.mk [] [] [] [⟨5, 6, 7, 5, 6, 7, 5, 6, 7⟩]
        ).obtener_array_vertices := by
    decide
  exact ⟨hmem,
    ((C10_obtener_array_vertices_total
      (ModeloOBJ.mk [] [] [] [⟨5, 6, 7, 5, 6, 7, 5, 6, 7⟩])).2 _ hmem).2.2⟩
